import Mathlib

/-!
Verification of the python-pass password store engine
(`pypass/passwordstore.py` and the `mv` command of `pypass/command.py`)
against its natural-language specification.

Paths are modelled as lists of segments of an absolute path
(`["store", "a", "b"]` stands for `/store/a/b`).  A user-supplied relative
path is likewise a list of segments, where a segment may be `".."`, `"."`
or `""` (the latter arising from duplicate or trailing separators).
The filesystem is a pair of a file association list (path, content) and a
directory list.  The external gpg backend is abstracted as an
`encrypt : gpgId → plaintext → ciphertext` function together with a
fallible `decrypt : ciphertext → Option plaintext`.
-/

namespace PyPass

/-- `os.path.normpath` on an absolute path, processing segments left to
right onto an accumulator: `""` and `"."` are dropped, `".."` pops the
last accumulated segment (at the root it is a no-op), anything else is
appended. -/
def normSegs : List String → List String → List String
  | acc, [] => acc
  | acc, s :: rest =>
    if s = "" ∨ s = "." then normSegs acc rest
    else if s = ".." then normSegs acc.dropLast rest
    else normSegs (acc ++ [s]) rest

/-- `os.path.abspath` of a path given by segments (relative to the
filesystem root), i.e. pure lexical normalization. -/
def normalizeAbs (segs : List String) : List String :=
  normSegs [] segs

/-- `PasswordStore._is_valid_store_subpath`: with Python ≥ 3.5 this is
`os.path.commonpath([root]) == os.path.commonpath([root, child])`, which
for two absolute normalized paths holds iff the root's segments are a
prefix of the child's segments. -/
def is_valid_store_subpath (root child : List String) : Bool :=
  root.isPrefixOf child

/-- `PasswordStore._resolve_path`: `os.path.abspath(os.path.join(self.path,
path))` followed by the containment check; `none` models the raised
`ValueError`.  `self.path` is itself stored normalized
(`os.path.abspath` in the constructor), so joining and normalizing is
normalizing `root ++ path`. -/
def resolve_path (root path : List String) : Option (List String) :=
  let fp := normalizeAbs (root ++ path)
  if is_valid_store_subpath root fp then some fp else none

/-- Python string concatenation `path + ".gpg"` at the level of path
segments: the suffix is glued onto the final segment. -/
def addGpg : List String → List String
  | [] => [(".gpg")]
  | p => p.dropLast ++ [p.getLastD "" ++ ".gpg"]

/-- `os.path.basename` of a path given by segments. -/
def basenameOf (p : List String) : String :=
  p.getLastD ""

/-- The password store's file tree: an association list from absolute file
paths to their (ciphertext) contents, and the list of existing
directories. -/
structure FS where
  files : List (List String × String)
  dirs : List (List String)
deriving DecidableEq

/-- First-match lookup of a file's content. -/
def lookupFile : List (List String × String) → List String → Option String
  | [], _ => none
  | (q, c) :: rest, p => if q = p then some c else lookupFile rest p

/-- Removal of all bindings of a file path (`os.remove`). -/
def eraseFile : List (List String × String) → List String → List (List String × String)
  | [], _ => []
  | (q, c) :: rest, p => if q = p then eraseFile rest p else (q, c) :: eraseFile rest p

def FS.isFile (fs : FS) (p : List String) : Bool :=
  (lookupFile fs.files p).isSome

def FS.isDir (fs : FS) (d : List String) : Bool :=
  decide (d ∈ fs.dirs)

def FS.content (fs : FS) (p : List String) : Option String :=
  lookupFile fs.files p

/-- Write (create or overwrite) a file. -/
def FS.setFile (fs : FS) (p : List String) (c : String) : FS :=
  { fs with files := (p, c) :: eraseFile fs.files p }

/-- `os.remove`. -/
def FS.removeFile (fs : FS) (p : List String) : FS :=
  { fs with files := eraseFile fs.files p }

/-- `os.rmdir` of an existing empty directory (the emptiness/existence
checks live at the call sites, mirroring the `OSError` raised
otherwise). -/
def FS.rmdir (fs : FS) (d : List String) : FS :=
  { fs with dirs := fs.dirs.filter (fun e => decide (e ≠ d)) }

/-- `os.mkdir`. -/
def FS.addDir (fs : FS) (d : List String) : FS :=
  { fs with dirs := fs.dirs ++ [d] }

/-- `os.makedirs`: create every missing directory along the chain of
prefixes of `d`. -/
def FS.makedirs (fs : FS) (d : List String) : FS :=
  { fs with
    dirs := fs.dirs ++
      ((List.range d.length).map (fun i => d.take (i + 1))).filter
        (fun e => decide (e ∉ fs.dirs)) }

/-- A path strictly below `d` (some descendant of the directory `d`). -/
def strictUnder (d p : List String) : Bool :=
  d.isPrefixOf p && decide (p ≠ d)

/-- A directory is empty when no file and no other directory lies below
it. -/
def FS.dirEmpty (fs : FS) (d : List String) : Bool :=
  fs.files.all (fun e => !strictUnder d e.1) &&
    fs.dirs.all (fun e => !strictUnder d e)

/-- The loop of `os.removedirs`, recursing on the length of the
remaining ancestor chain: remove the leaf directory if it exists and is
empty, then walk upward repeating this, stopping at the first directory
that is missing or non-empty. -/
def removedirsFuel : Nat → FS → List String → FS
  | 0, fs, _ => fs
  | fuel + 1, fs, d =>
    if d = [] then fs
    else if fs.isDir d ∧ fs.dirEmpty d then
      removedirsFuel fuel (fs.rmdir d) d.dropLast
    else fs

/-- `os.removedirs` wrapped in the caller's `try … except OSError: pass`
(`passwordstore.py` swallows the error).  The chain starting at `d` has
`d.length + 1` members down to the filesystem root, which bounds the
loop. -/
def removedirsAux (fs : FS) (d : List String) : FS :=
  removedirsFuel (d.length + 1) fs d

/-- The error taxonomy surfaced by the store operations. -/
inductive PassError where
  /-- `ValueError` from `_resolve_path` (`PathEscapeError` in the spec). -/
  | pathEscape
  /-- `ValueError` when `remove` targets a directory without `recursive`. -/
  | notRecursive
  /-- `OSError(ENOENT)` when nothing exists at the target. -/
  | notFound
  /-- An `OSError` propagating from a raw filesystem call. -/
  | osError
  /-- A failed gpg invocation or missing `.gpg-id`. -/
  | gpgError
deriving DecidableEq

/-- Python's default whitespace set for `str.strip()`. -/
def isSpaceChar (c : Char) : Bool :=
  c = ' ' ∨ c = '\t' ∨ c = '\n' ∨ c = '\r' ∨ c = '\x0b' ∨ c = '\x0c'

/-- `str.strip()`: remove leading and trailing whitespace. -/
def stripWS (s : String) : String :=
  String.mk (((s.data.dropWhile isSpaceChar).reverse.dropWhile isSpaceChar).reverse)

/-- `PasswordStore._get_gpg_id` restricted to what it inspects (only
`os.path.isfile`, hence only the file list): starting from `p`, while the
current path is still inside the store, look for a `.gpg-id` file
directly beneath it and otherwise step to the parent directory.  The fuel
`p.length + 1` covers the whole ancestor chain of `p`. -/
def getGpgIdAux (files : List (List String × String)) (root : List String) :
    Nat → List String → Option String
  | 0, _ => none
  | fuel + 1, p =>
    if is_valid_store_subpath root p then
      match lookupFile files (p ++ [(".gpg-id")]) with
      | some c => some (stripWS c)
      | none => getGpgIdAux files root fuel p.dropLast
    else none

def getGpgIdF (files : List (List String × String)) (root p : List String) :
    Option String :=
  getGpgIdAux files root (p.length + 1) p

/-- `EntryType`.  Modelled from the spec: `pypass/entry_type.py` is not
part of the provided sources; the spec's field-extraction section and the
references `EntryType.username`, `EntryType.password`,
`EntryType.hostname` in `passwordstore.py` determine it as a plain
three-valued enumeration. -/
inductive EntryType where
  | username
  | password
  | hostname
deriving DecidableEq

/-- One attempt of the pattern `key ++ ": " ++ (.+)` at the head of `l`:
the key and `": "` must literally follow, and the capture `(.+)` needs at
least one character that is not a line break; on success the captured
group is the maximal run of non-newline characters. -/
def keyMatchAt (key : List Char) (l : List Char) : Option (List Char) :=
  if (key ++ [':', ' ']).isPrefixOf l then
    match l.drop (key.length + 2) with
    | [] => none
    | c :: rest =>
      if c = '\n' then none
      else some ((c :: rest).takeWhile (fun a => decide (a ≠ '\n')))
  else none

/-- Alternation `(?:k₁|k₂|…)` at a fixed position: the alternatives are
tried in order. -/
def keysMatchAt (keys : List (List Char)) (l : List Char) : Option (List Char) :=
  match keys with
  | [] => none
  | k :: ks =>
    match keyMatchAt k l with
    | some v => some v
    | none => keysMatchAt ks l

/-- `re.search` for the pattern `(?:k₁|k₂|…): (.+)`: the leftmost
position with a match wins. -/
def reSearch (keys : List (List Char)) : List Char → Option (List Char)
  | [] => none
  | c :: rest =>
    match keysMatchAt keys (c :: rest) with
    | some v => some v
    | none => reSearch keys rest

def reSearchStr (keys : List (List Char)) (s : String) : Option String :=
  (reSearch keys s.data).map String.mk

/-- `s.split('\n')[0]`. -/
def firstLine (s : String) : String :=
  String.mk (s.data.takeWhile (fun a => decide (a ≠ '\n')))

/-- The remainder of a string after its first line break (the claim's
"remainder after the first line break"). -/
def restAfterBreak (s : String) : String :=
  String.mk ((s.data.dropWhile (fun a => decide (a ≠ '\n'))).drop 1)

def userKeys : List (List Char) :=
  [("username").data, ("user").data, ("login").data]

def pwKeys : List (List Char) :=
  [("password").data, ("pass").data]

def hostKeys : List (List Char) :=
  [("host").data, ("hostname").data]

/-- `PasswordStore.get_decrypted_password`.  Decryption failure of the
external backend and a missing ciphertext file both surface as the
non-zero gpg exit status, i.e. the raised `Exception`.  The `Option` in
the success value records that the username/hostname extraction silently
yields nothing when no line matches. -/
def get_decrypted_password (decrypt : String → Option String) (fs : FS)
    (root path : List String) (entry : Option EntryType) :
    Except PassError (Option String) :=
  match resolve_path root path with
  | none => .error .pathEscape
  | some rp =>
    match lookupFile fs.files (addGpg rp) with
    | none => .error .gpgError
    | some ct =>
      match decrypt ct with
      | none => .error .gpgError
      | some pt =>
        match entry with
        | some .username => .ok (reSearchStr userKeys pt)
        | some .password => .ok (some ((reSearchStr pwKeys pt).getD (firstLine pt)))
        | some .hostname => .ok (reSearchStr hostKeys pt)
        | none => .ok (some pt)

/-- `PasswordStore.insert_password`: resolve, create the missing parent
directories, find the governing gpg id (now walking up from the target,
after the `makedirs`), then encrypt and write.  The returned pair is the
filesystem after the call together with the raised error, if any. -/
def insert_password (encrypt : String → String → String) (fs : FS)
    (root path : List String) (password : String) : FS × Option PassError :=
  match resolve_path root path with
  | none => (fs, some .pathEscape)
  | some rp =>
    let pf := addGpg rp
    let fs1 := if fs.isDir pf.dropLast then fs else fs.makedirs pf.dropLast
    match getGpgIdF fs1.files root pf with
    | none => (fs1, some .gpgError)
    | some gid => (fs1.setFile pf (encrypt gid password), none)

/-- The immediate subdirectories of `d` among a directory list. -/
def childDirsOf (ds : List (List String)) (d : List String) : List (List String) :=
  ds.filter (fun e => decide (e.length = d.length + 1) && d.isPrefixOf e)

/-- The paths of the files lying directly in `d` among a file list. -/
def childFilesOf (files : List (List String × String)) (d : List String) :
    List (List String) :=
  (files.map (fun e => e.1)).filter
    (fun e => decide (e.length = d.length + 1) && d.isPrefixOf e)

/-- One more segment of nesting than the deepest directory: enough fuel
for any walk of the tree. -/
def FS.depthBound (fs : FS) : Nat :=
  ((fs.dirs.map List.length).foldr Nat.max 0) + 1

/-- The `on_file` callback of `remove`'s recursive branch:
`on_entry(name) and os.remove(name)`; removing a missing file raises,
and the exception propagates out of the walk (error value = filesystem
at that moment). -/
def rmFileStep (onE : List String → Bool) (fs : FS) (name : List String) :
    Except FS FS :=
  if onE name then
    if fs.isFile name then .ok (fs.removeFile name) else .error fs
  else .ok fs

/-- The `on_dir` callback of `remove`'s recursive branch:
`on_entry(name) and os.rmdir(name)`; `os.rmdir` raises on a missing or
non-empty directory and the exception propagates out of the walk. -/
def rmDirStep (onE : List String → Bool) (fs : FS) (name : List String) :
    Except FS FS :=
  if onE name then
    if fs.isDir name ∧ fs.dirEmpty name then .ok (fs.rmdir name) else .error fs
  else .ok fs

/-- `PasswordStore._walk` with `topdown=False` as used by `remove`:
`os.walk` lists each directory before descending, so the visited tree is
the snapshot `dirs0`/`files0` taken at the start; per yielded directory
the subdirectories are reported first, then the files, and a directory's
yield comes after all of its descendants' yields. -/
def walkRemoveBU (dirs0 : List (List String)) (files0 : List (List String × String))
    (onE : List String → Bool) : Nat → List String → FS → Except FS FS
  | 0, _, fs => .ok fs
  | fuel + 1, d, fs => do
    let children := childDirsOf dirs0 d
    let fs ← children.foldlM (fun acc c => walkRemoveBU dirs0 files0 onE fuel c acc) fs
    let fs ← children.foldlM (fun acc c => rmDirStep onE acc c) fs
    let fs ← (childFilesOf files0 d).foldlM (fun acc f => rmFileStep onE acc f) fs
    .ok fs

/-- `PasswordStore.remove`.  The result is the filesystem after the call
paired with the raised error, if any. -/
def remove (fs : FS) (root path : List String) (recursive : Bool)
    (onE : List String → Bool) : FS × Option PassError :=
  match resolve_path root path with
  | none => (fs, some .pathEscape)
  | some rp =>
    if fs.isFile (addGpg rp) then
      -- `path in self`: the entry file exists
      if onE (addGpg rp) then
        let fs1 := fs.removeFile (addGpg rp)
        (removedirsAux fs1 (addGpg rp).dropLast, none)
      else (fs, none)
    else if fs.isDir rp then
      if recursive then
        match walkRemoveBU fs.dirs fs.files onE fs.depthBound rp fs with
        | .error fsErr => (fsErr, some .osError)
        | .ok fs1 =>
          -- `try: on_entry(resolved_path) and os.rmdir(resolved_path)
          --  except OSError: pass`
          if onE rp then
            if fs1.isDir rp ∧ fs1.dirEmpty rp then (fs1.rmdir rp, none)
            else (fs1, none)
          else (fs1, none)
      else (fs, some .notRecursive)
    else (fs, some .notFound)

/-- `shutil.copy2(src, dst)` on the model: reading the source must
succeed, the destination must not be an existing directory, and the
destination's parent directory must exist; otherwise the `OSError`
propagates. -/
def copy2 (fs : FS) (src dst : List String) : Except FS FS :=
  if fs.isDir dst then .error fs
  else if fs.isDir dst.dropLast then
    match lookupFile fs.files src with
    | some c => .ok (fs.setFile dst c)
    | none => .error fs
  else .error fs

/-- The `on_file` callback of `copy`'s directory branch, also recording
the `on_overwrite` consultations:
`(not os.path.isfile(new(old)) or on_overwrite(old, new(old))) and
shutil.copy2(old, new(old))`. -/
def cpFileStep (onOW : List String → List String → Bool)
    (st : FS × List (List String × List String)) (src dst : List String) :
    Except (FS × List (List String × List String))
      (FS × List (List String × List String)) :=
  if st.1.isFile dst then
    if onOW src dst then
      match copy2 st.1 src dst with
      | .ok fs1 => .ok (fs1, st.2 ++ [(src, dst)])
      | .error fs1 => .error (fs1, st.2 ++ [(src, dst)])
    else .ok (st.1, st.2 ++ [(src, dst)])
  else
    match copy2 st.1 src dst with
    | .ok fs1 => .ok (fs1, st.2)
    | .error fs1 => .error (fs1, st.2)

/-- The `on_dir` callback of `copy`'s directory branch:
`old != resolved_new_path and os.mkdir(new(old))`; `os.mkdir` raises when
the target already exists or its parent is missing, and the exception
propagates. -/
def mkdirStep (ro rn : List String)
    (st : FS × List (List String × List String)) (d : List String) :
    Except (FS × List (List String × List String))
      (FS × List (List String × List String)) :=
  if d = rn then .ok st
  else if st.1.isDir (rn ++ d.drop ro.length) ∨ st.1.isFile (rn ++ d.drop ro.length) then
    .error st
  else if st.1.isDir (rn ++ d.drop ro.length).dropLast then
    .ok (st.1.addDir (rn ++ d.drop ro.length), st.2)
  else .error st

/-- `PasswordStore._walk` with `topdown=True` as used by `copy`'s
directory branch: per yielded directory the subdirectory callbacks run
first, then the file callbacks, then the walk descends. -/
def walkCopyTD (dirs0 : List (List String)) (files0 : List (List String × String))
    (ro rn : List String) (onOW : List String → List String → Bool) :
    Nat → List String →
    FS × List (List String × List String) →
    Except (FS × List (List String × List String))
      (FS × List (List String × List String))
  | 0, _, st => .ok st
  | fuel + 1, d, st => do
    let children := childDirsOf dirs0 d
    let st ← children.foldlM (fun acc c => mkdirStep ro rn acc c) st
    let st ← (childFilesOf files0 d).foldlM
      (fun acc f => cpFileStep onOW acc f (rn ++ f.drop ro.length)) st
    children.foldlM (fun acc c => walkCopyTD dirs0 files0 ro rn onOW fuel c acc) st

/-- `PasswordStore.copy`.  The result is the filesystem after the call,
the raised error (if any), and the sequence of `(copied, destination)`
pairs `on_overwrite` was consulted with. -/
def copy (fs : FS) (root old new : List String)
    (onOW : List String → List String → Bool) :
    FS × Option PassError × List (List String × List String) :=
  match resolve_path root old with
  | none => (fs, some .pathEscape, [])
  | some ro =>
    match resolve_path root new with
    | none => (fs, some .pathEscape, [])
    | some rn0 =>
      let rn := if fs.isDir rn0 then rn0 ++ [basenameOf old] else rn0
      if fs.isFile (addGpg ro) then
        -- `old_path in self`: single-entry copy
        let src := addGpg ro
        let dst := addGpg rn
        if fs.isFile dst then
          if onOW src dst then
            match copy2 fs src dst with
            | .ok fs1 => (fs1, none, [(src, dst)])
            | .error fs1 => (fs1, some .osError, [(src, dst)])
          else (fs, none, [(src, dst)])
        else
          match copy2 fs src dst with
          | .ok fs1 => (fs1, none, [])
          | .error fs1 => (fs1, some .osError, [])
      else if fs.isDir ro then
        -- directory-tree copy; `os.makedirs` failure is swallowed
        let fs1 := fs.makedirs rn
        match walkCopyTD fs1.dirs fs1.files ro rn onOW fs1.depthBound ro (fs1, []) with
        | .error st => (st.1, some .osError, st.2)
        | .ok st => (st.1, none, st.2)
      else (fs, some .notFound, [])

/-- The consultation log of a (possibly failed) directory-walk state. -/
def consultLog
    (r : Except (FS × List (List String × List String))
      (FS × List (List String × List String))) :
    List (List String × List String) :=
  match r with
  | .ok st => st.2
  | .error st => st.2

/-- `shutil.move(src, dst)` for an existing source file or directory
tree: when `dst` is an existing directory the real destination is
`dst/basename(src)`, which must not already exist; then `os.rename`,
which silently replaces an existing destination file but needs the
destination's parent directory to exist and cannot rename a directory
onto an existing file. -/
def shutilMove (fs : FS) (src dst : List String) : Except FS FS :=
  let realDst := if fs.isDir dst then dst ++ [basenameOf src] else dst
  if fs.isDir dst ∧ (fs.isFile realDst ∨ fs.isDir realDst) then .error fs
  else if ¬ fs.isDir realDst.dropLast then .error fs
  else if fs.isFile src then
    match lookupFile fs.files src with
    | some c => .ok ((fs.removeFile src).setFile realDst c)
    | none => .error fs
  else if fs.isDir src then
    if fs.isFile realDst then .error fs
    else
      .ok
        { files := fs.files.map (fun e =>
            if src.isPrefixOf e.1 then (realDst ++ e.1.drop src.length, e.2) else e),
          dirs := fs.dirs.map (fun e =>
            if src.isPrefixOf e then realDst ++ e.drop src.length else e) }
  else .error fs

/-- The `mv` command of `pypass/command.py`.  Both paths are built with
`os.path.realpath(os.path.join(store, arg))`, which on a tree free of
symbolic links is lexical normalization; there is no containment check
and no `on_overwrite` parameter.  When neither a directory nor an entry
file exists at the source, the command merely prints an error message and
leaves the store untouched, reported here as `notFound`. -/
def mv (fs : FS) (root old new : List String) : FS × Option PassError :=
  let rold := normalizeAbs (root ++ old)
  if fs.isDir rold then
    match shutilMove fs rold (normalizeAbs (root ++ new)) with
    | .ok fs1 => (fs1, none)
    | .error fs1 => (fs1, some .osError)
  else
    let srcf := normalizeAbs (root ++ addGpg old)
    if fs.isFile srcf then
      match shutilMove fs srcf (normalizeAbs (root ++ addGpg new)) with
      | .ok fs1 => (fs1, none)
      | .error fs1 => (fs1, some .osError)
    else (fs, some .notFound)

/-- `''.join(old_content.partition('\n')[1:])`: the suffix of the string
from the first line break (inclusive), or `""` when there is none. -/
def partitionTail (s : String) : String :=
  String.mk (s.data.dropWhile (fun a => decide (a ≠ '\n')))

/-- `string.ascii_letters`. -/
def asciiLetters : List Char :=
  ("abcdefghijklmnopqrstuvwxyzABCDEFGHIJKLMNOPQRSTUVWXYZ").data

/-- `string.punctuation`: the printable ASCII characters (codes 33–126)
that are not alphanumeric. -/
def punctuationChars : List Char :=
  ((List.range 94).map (fun i => Char.ofNat (33 + i))).filter
    (fun c => !c.isAlphanum)

/-- `string.digits`. -/
def digitChars : List Char :=
  ("0123456789").data

/-- The character pool of `generate_password`: letters, then optionally
the symbols, then optionally the digits. -/
def passChars (digits symbols : Bool) : List Char :=
  asciiLetters ++ (if symbols then punctuationChars else []) ++
    (if digits then digitChars else [])

/-- `''.join(choice(chars) for i in range(length))` with the secure
random source abstracted as an oracle of indices: draw `i` picks the
pool element at `rand i % len(chars)`. -/
def genPw (rand : Nat → Nat) (digits symbols : Bool) (length : Nat) : String :=
  String.mk ((List.range length).map
    (fun i => (passChars digits symbols).getD
      (rand i % (passChars digits symbols).length) 'a'))

/-- `PasswordStore.generate_password`.  The secure random source is
abstracted as an oracle `rand`; draw `i` of the generated password is
`choice(chars)`, modelled as the pool element at index
`rand i % chars.length`.  The result is the filesystem after the call,
the raised error (if any), and the returned password (if the call got
that far). -/
def generate_password (encrypt : String → String → String)
    (decrypt : String → Option String) (rand : Nat → Nat) (fs : FS)
    (root path : List String) (digits symbols : Bool) (length : Nat)
    (first_line_only : Bool) : FS × Option PassError × Option String :=
  let afterRead : Except PassError String :=
    if first_line_only then
      match get_decrypted_password decrypt fs root path none with
      | .error e => .error e
      | .ok (some old) => .ok (partitionTail old)
      | .ok none => .error .gpgError
        -- unreachable: with `entry = none` a successful read always
        -- yields the full content
    else .ok ("")
  match afterRead with
  | .error e => (fs, some e, none)
  | .ok content_wo_pass =>
    let password := genPw rand digits symbols length
    match insert_password encrypt fs root path (password ++ content_wo_pass) with
    | (fs1, some e) => (fs1, some e, none)
    | (fs1, none) => (fs1, none, some password)

/-- The canonical (symlink-resolved) form of an absolute path, given the
symbolic links of the tree as a partial map from a link's path to its
(already canonical) target: each segment is appended and, when the
resulting path is a link, replaced by the link's target before resolution
continues.  This is what `os.path.realpath` computes and what
`_resolve_path` does **not** compute. -/
def realizeSegs (links : List String → Option (List String)) :
    List String → List String → List String
  | acc, [] => acc
  | acc, s :: rest =>
    match links (acc ++ [s]) with
    | some t => realizeSegs links t rest
    | none => realizeSegs links (acc ++ [s]) rest

def canonicalPath (links : List String → Option (List String))
    (p : List String) : List String :=
  realizeSegs links [] p

section Lemmas

theorem normSegs_append (acc : List String) (l1 l2 : List String) :
    normSegs acc (l1 ++ l2) = normSegs (normSegs acc l1) l2 := by
  induction l1 generalizing acc with
  | nil => rfl
  | cons s rest ih =>
    simp only [List.cons_append, normSegs]
    by_cases h1 : s = "" ∨ s = "."
    · simp only [if_pos h1]
      exact ih acc
    · by_cases h2 : s = ".."
      · simp only [if_neg h1, if_pos h2]
        exact ih acc.dropLast
      · simp only [if_neg h1, if_neg h2]
        exact ih (acc ++ [s])

theorem lookupFile_eraseFile_self (files : List (List String × String))
    (p : List String) : lookupFile (eraseFile files p) p = none := by
  induction files with
  | nil => rfl
  | cons e rest ih =>
    obtain ⟨q, c⟩ := e
    simp only [eraseFile]
    by_cases h : q = p
    · simp only [if_pos h, ih]
    · simp only [if_neg h, lookupFile, if_neg h, ih]

theorem lookupFile_eraseFile_ne (files : List (List String × String))
    (p q : List String) (h : q ≠ p) :
    lookupFile (eraseFile files p) q = lookupFile files q := by
  induction files with
  | nil => rfl
  | cons e rest ih =>
    obtain ⟨r, c⟩ := e
    simp only [eraseFile, lookupFile]
    by_cases hr : r = p
    · simp only [if_pos hr, ih, lookupFile]
      have : ¬ r = q := fun hc => h (hc ▸ hr ▸ rfl)
      simp only [if_neg this]
    · simp only [if_neg hr, lookupFile]
      by_cases hq : r = q
      · simp only [if_pos hq]
      · simp only [if_neg hq, ih]

theorem lookupFile_setFile_self (fs : FS) (p : List String) (c : String) :
    lookupFile (fs.setFile p c).files p = some c := by
  simp [FS.setFile, lookupFile]

theorem lookupFile_setFile_ne (fs : FS) (p q : List String) (c : String)
    (h : q ≠ p) : lookupFile (fs.setFile p c).files q = lookupFile fs.files q := by
  simp only [FS.setFile, lookupFile]
  have : ¬ p = q := fun hc => h hc.symm
  simp only [if_neg this, lookupFile_eraseFile_ne fs.files p q h]

theorem mem_of_lookupFile (files : List (List String × String))
    (p : List String) (c : String) (h : lookupFile files p = some c) :
    (p, c) ∈ files := by
  induction files with
  | nil => simp [lookupFile] at h
  | cons e rest ih =>
    obtain ⟨q, d⟩ := e
    simp only [lookupFile] at h
    by_cases hq : q = p
    · simp only [if_pos hq] at h
      cases h
      exact hq ▸ List.mem_cons_self _ _
    · simp only [if_neg hq] at h
      exact List.mem_cons_of_mem _ (ih h)

theorem mem_eraseFile (files : List (List String × String))
    (p q : List String) (c : String) (h : (q, c) ∈ files) (hne : q ≠ p) :
    (q, c) ∈ eraseFile files p := by
  induction files with
  | nil => simp at h
  | cons e rest ih =>
    obtain ⟨r, d⟩ := e
    simp only [eraseFile]
    rcases List.mem_cons.mp h with heq | hmem
    · cases heq
      simp only [if_neg hne]
      exact List.mem_cons_self _ _
    · by_cases hr : r = p
      · simp only [if_pos hr]
        exact ih hmem
      · simp only [if_neg hr]
        exact List.mem_cons_of_mem _ (ih hmem)

theorem isPrefixOf_iff (l1 l2 : List String) :
    l1.isPrefixOf l2 = true ↔ l1 <+: l2 :=
  List.isPrefixOf_iff_prefix

/-- Everything `resolve_path` accepts lies (as a path string) under the
root. -/
theorem resolve_path_under_root (root p q : List String)
    (h : resolve_path root p = some q) : root <+: q := by
  simp only [resolve_path, is_valid_store_subpath] at h
  split at h
  next hc =>
    cases h
    exact (isPrefixOf_iff _ _).mp hc
  next hc => simp at h

theorem dirEmpty_files (fs : FS) (d : List String) (h : fs.dirEmpty d = true)
    (q : List String) (c : String) (hm : (q, c) ∈ fs.files) :
    strictUnder d q = false := by
  simp only [FS.dirEmpty, Bool.and_eq_true, List.all_eq_true] at h
  have := h.1 (q, c) hm
  simpa using this

theorem removedirsFuel_files (fuel : Nat) :
    ∀ (fs : FS) (d : List String), (removedirsFuel fuel fs d).files = fs.files := by
  induction fuel with
  | zero => intro fs d; rfl
  | succ n ih =>
    intro fs d
    simp only [removedirsFuel]
    split_ifs
    · rfl
    · exact ih (fs.rmdir d) d.dropLast
    · rfl

theorem removedirsAux_files (fs : FS) (d : List String) :
    (removedirsAux fs d).files = fs.files :=
  removedirsFuel_files _ fs d

theorem removedirsFuel_dirs_subset (fuel : Nat) :
    ∀ (fs : FS) (d e : List String),
      e ∈ (removedirsFuel fuel fs d).dirs → e ∈ fs.dirs := by
  induction fuel with
  | zero => intro fs d e h; exact h
  | succ n ih =>
    intro fs d e h
    simp only [removedirsFuel] at h
    split_ifs at h
    · exact h
    · have := ih _ _ _ h
      simp only [FS.rmdir, List.mem_filter] at this
      exact this.1
    · exact h

theorem removedirsAux_dirs_subset (fs : FS) (d e : List String)
    (h : e ∈ (removedirsAux fs d).dirs) : e ∈ fs.dirs :=
  removedirsFuel_dirs_subset _ fs d e h

/-- A directory pruned by `os.removedirs` contained, at the moment of its
removal, no file at all; since the pruning never touches files, every
pruned directory contains no file of the starting filesystem. -/
theorem removedirsFuel_pruned_empty (fuel : Nat) :
    ∀ (fs : FS) (d e : List String), e ∈ fs.dirs →
      e ∉ (removedirsFuel fuel fs d).dirs →
      ∀ q c, (q, c) ∈ fs.files → strictUnder e q = false := by
  induction fuel with
  | zero => intro fs d e he hgone; exact absurd he hgone
  | succ n ih =>
    intro fs d e he hgone q c hq
    simp only [removedirsFuel] at hgone
    split_ifs at hgone with h1 h2
    · exact absurd he hgone
    · by_cases hed : e = d
      · exact hed ▸ dirEmpty_files fs d h2.2 q c hq
      · have he' : e ∈ (fs.rmdir d).dirs := by
          simp only [FS.rmdir, List.mem_filter]
          exact ⟨he, by simpa using hed⟩
        exact ih _ _ _ he' hgone q c hq
    · exact absurd he hgone

theorem removedirsAux_pruned_empty (fs : FS) (d e : List String)
    (he : e ∈ fs.dirs) (hgone : e ∉ (removedirsAux fs d).dirs) :
    ∀ q c, (q, c) ∈ fs.files → strictUnder e q = false :=
  removedirsFuel_pruned_empty _ fs d e he hgone

/-- The first step of the pruning: the deleted entry's parent directory
is removed whenever it exists and has become empty. -/
theorem removedirsAux_removes_head (fs : FS) (d : List String) (hne : d ≠ [])
    (hcond : fs.isDir d = true ∧ fs.dirEmpty d = true) :
    d ∉ (removedirsAux fs d).dirs := by
  unfold removedirsAux
  simp only [removedirsFuel, if_neg hne, if_pos hcond]
  intro hmem
  have := removedirsFuel_dirs_subset _ _ _ _ hmem
  simp [FS.rmdir, List.mem_filter] at this

theorem addGpg_eq (p : List String) (h : p ≠ []) :
    addGpg p = p.dropLast ++ [p.getLastD "" ++ (".gpg")] := by
  cases p with
  | nil => exact absurd rfl h
  | cons a as => rfl

theorem addGpg_concat (l : List String) (s : String) :
    addGpg (l ++ [s]) = l ++ [s ++ (".gpg")] := by
  rw [addGpg_eq _ (by simp), List.dropLast_concat, List.getLastD_concat]

theorem getD_mem_of_lt {α : Type} (l : List α) (i : Nat) (d : α)
    (h : i < l.length) : l.getD i d ∈ l := by
  induction l generalizing i with
  | nil => simp at h
  | cons a as ih =>
    cases i with
    | zero => simp [List.getD]
    | succ n =>
      have hn : n < as.length := by simpa using h
      exact List.mem_cons_of_mem a (ih n hn)

theorem takeWhile_append_all {α : Type} (p : α → Bool) (l1 l2 : List α)
    (h : ∀ c ∈ l1, p c = true) :
    (l1 ++ l2).takeWhile p = l1 ++ l2.takeWhile p := by
  induction l1 with
  | nil => simp
  | cons a as ih =>
    have ha : p a = true := h a (List.mem_cons_self _ _)
    simp only [List.cons_append, List.takeWhile_cons, ha, if_true]
    rw [ih (fun c hc => h c (List.mem_cons_of_mem a hc))]

theorem dropWhile_append_all {α : Type} (p : α → Bool) (l1 l2 : List α)
    (h : ∀ c ∈ l1, p c = true) :
    (l1 ++ l2).dropWhile p = l2.dropWhile p := by
  induction l1 with
  | nil => simp
  | cons a as ih =>
    have ha : p a = true := h a (List.mem_cons_self _ _)
    simp only [List.cons_append, List.dropWhile_cons, ha, if_true]
    exact ih (fun c hc => h c (List.mem_cons_of_mem a hc))

theorem passChars_pos (digits symbols : Bool) :
    0 < (passChars digits symbols).length := by
  cases digits <;> cases symbols <;> decide

theorem passChars_no_newline (digits symbols : Bool) :
    ∀ c ∈ passChars digits symbols, ¬ c = '\n' := by
  cases digits <;> cases symbols <;> decide

theorem isDir_iff (fs : FS) (d : List String) :
    fs.isDir d = true ↔ d ∈ fs.dirs := by
  simp [FS.isDir]

theorem strictUnder_append (d : List String) (s : String) :
    strictUnder d (d ++ [s]) = true := by
  simp only [strictUnder, Bool.and_eq_true, decide_eq_true_eq]
  refine ⟨(isPrefixOf_iff _ _).mpr (List.prefix_append d [s]), ?_⟩
  intro hc
  have := congrArg List.length hc
  simp at this

theorem isFile_false_iff (fs : FS) (p : List String) :
    fs.isFile p = false ↔ lookupFile fs.files p = none := by
  unfold FS.isFile
  cases lookupFile fs.files p <;> simp

/-- The files reported by the snapshot walk below `d`, in visit order:
the files lying directly in a directory first, then the subtrees of its
subdirectories. -/
def visitedFiles (dirs0 : List (List String))
    (files0 : List (List String × String)) : Nat → List String → List (List String)
  | 0, _ => []
  | fuel + 1, d =>
    childFilesOf files0 d ++
      (childDirsOf dirs0 d).flatMap (fun c => visitedFiles dirs0 files0 fuel c)

theorem mkdirStep_log (ro rn : List String)
    (st : FS × List (List String × List String)) (c : List String) :
    consultLog (mkdirStep ro rn st c) = st.2 := by
  unfold mkdirStep
  split_ifs <;> rfl

theorem cpFileStep_log (onOW : List String → List String → Bool)
    (st : FS × List (List String × List String)) (f dstf : List String) :
    consultLog (cpFileStep onOW st f dstf) = st.2 ∨
    consultLog (cpFileStep onOW st f dstf) = st.2 ++ [(f, dstf)] := by
  unfold cpFileStep
  split_ifs
  · cases copy2 st.1 f dstf <;> exact Or.inr rfl
  · exact Or.inr rfl
  · cases copy2 st.1 f dstf <;> exact Or.inl rfl

theorem mkdirFold_log (ro rn : List String) :
    ∀ (cs : List (List String)) (st : FS × List (List String × List String)),
      consultLog (cs.foldlM (fun acc c => mkdirStep ro rn acc c) st) = st.2 := by
  intro cs
  induction cs with
  | nil => intro st; rfl
  | cons c cs' ih =>
    intro st
    have hstep := mkdirStep_log ro rn st c
    rw [List.foldlM_cons]
    cases h : mkdirStep ro rn st c with
    | ok st' =>
      rw [h] at hstep
      exact (ih st').trans hstep
    | error st' =>
      rw [h] at hstep
      exact hstep

theorem cpFileFold_log (onOW : List String → List String → Bool)
    (ro rn : List String) :
    ∀ (fl : List (List String)) (st : FS × List (List String × List String)),
      List.Sublist
        ((consultLog (fl.foldlM
          (fun acc f => cpFileStep onOW acc f (rn ++ f.drop ro.length)) st)).map
            Prod.fst)
        (st.2.map Prod.fst ++ fl) := by
  intro fl
  induction fl with
  | nil =>
    intro st
    exact List.sublist_append_left _ _
  | cons f fl' ih =>
    intro st
    have hstep := cpFileStep_log onOW st f (rn ++ f.drop ro.length)
    have hbridge : ∀ (l2 : List (List String × List String)),
        l2 = st.2 ∨ l2 = st.2 ++ [(f, rn ++ f.drop ro.length)] →
        List.Sublist (l2.map Prod.fst ++ fl')
          (st.2.map Prod.fst ++ (f :: fl')) := by
      rintro l2 (rfl | rfl)
      · rw [show st.2.map Prod.fst ++ (f :: fl') =
          st.2.map Prod.fst ++ ([f] ++ fl') from rfl]
        exact List.Sublist.append_left (List.sublist_append_right [f] fl') _
      · rw [List.map_append, List.append_assoc]
        rw [show List.map Prod.fst [(f, rn ++ f.drop ro.length)] ++ fl' =
          f :: fl' from rfl]
    rw [List.foldlM_cons]
    cases h : cpFileStep onOW st f (rn ++ f.drop ro.length) with
    | ok st' =>
      rw [h] at hstep
      exact (ih st').trans (hbridge st'.2 hstep)
    | error st' =>
      rw [h] at hstep
      exact (List.sublist_append_left _ fl').trans (hbridge st'.2 hstep)

theorem exceptBind_ok {ε α β : Type} (a : α) (k : α → Except ε β) :
    (Except.ok a >>= k) = k a := rfl

theorem exceptBind_error {ε α β : Type} (e : ε) (k : α → Except ε β) :
    ((Except.error e : Except ε α) >>= k) = Except.error e := rfl

theorem walkCopyTD_log_sublist (dirs0 : List (List String))
    (files0 : List (List String × String)) (ro rn : List String)
    (onOW : List String → List String → Bool) :
    ∀ (fuel : Nat) (d : List String)
      (st : FS × List (List String × List String)),
      List.Sublist
        ((consultLog (walkCopyTD dirs0 files0 ro rn onOW fuel d st)).map
          Prod.fst)
        (st.2.map Prod.fst ++ visitedFiles dirs0 files0 fuel d) := by
  intro fuel
  induction fuel with
  | zero =>
    intro d st
    exact List.sublist_append_left _ _
  | succ n ih =>
    intro d st
    have hrec : ∀ (cs : List (List String))
        (st1 : FS × List (List String × List String)),
        List.Sublist
          ((consultLog (cs.foldlM
            (fun acc c => walkCopyTD dirs0 files0 ro rn onOW n c acc)
              st1)).map Prod.fst)
          (st1.2.map Prod.fst ++
            cs.flatMap (fun c => visitedFiles dirs0 files0 n c)) := by
      intro cs
      induction cs with
      | nil => intro st1; exact List.sublist_append_left _ _
      | cons c cs' ihc =>
        intro st1
        rw [List.foldlM_cons]
        cases hw : walkCopyTD dirs0 files0 ro rn onOW n c st1 with
        | ok st2 =>
          have h1 := ih c st1
          rw [hw] at h1
          refine (ihc st2).trans ?_
          rw [List.flatMap_cons, ← List.append_assoc]
          exact h1.append_right _
        | error st2 =>
          have h1 := ih c st1
          rw [hw] at h1
          refine h1.trans ?_
          rw [List.flatMap_cons, ← List.append_assoc]
          exact List.sublist_append_left _ _
    have hvis : visitedFiles dirs0 files0 (n + 1) d =
        childFilesOf files0 d ++
          (childDirsOf dirs0 d).flatMap
            (fun c => visitedFiles dirs0 files0 n c) := rfl
    rw [walkCopyTD]
    cases hm : (childDirsOf dirs0 d).foldlM
        (fun acc c => mkdirStep ro rn acc c) st with
    | error stm =>
      have hlog2 : stm.2 = st.2 := by
        have := mkdirFold_log ro rn (childDirsOf dirs0 d) st
        rw [hm] at this
        exact this
      have base : (stm.2.map Prod.fst).Sublist
          (st.2.map Prod.fst ++ visitedFiles dirs0 files0 (n + 1) d) := by
        rw [hlog2]
        exact List.sublist_append_left _ _
      exact base
    | ok stm =>
      have hlog2 : stm.2 = st.2 := by
        have := mkdirFold_log ro rn (childDirsOf dirs0 d) st
        rw [hm] at this
        exact this
      rw [exceptBind_ok]
      cases hfd : (childFilesOf files0 d).foldlM
          (fun acc f => cpFileStep onOW acc f (rn ++ f.drop ro.length)) stm with
      | error stf =>
        have h2 := cpFileFold_log onOW ro rn (childFilesOf files0 d) stm
        rw [hfd] at h2
        rw [hlog2] at h2
        have base : (stf.2.map Prod.fst).Sublist
            (st.2.map Prod.fst ++ visitedFiles dirs0 files0 (n + 1) d) := by
          refine h2.trans ?_
          rw [hvis, ← List.append_assoc]
          exact List.sublist_append_left _ _
        exact base
      | ok stf =>
        have h2 := cpFileFold_log onOW ro rn (childFilesOf files0 d) stm
        rw [hfd] at h2
        rw [hlog2] at h2
        refine (hrec (childDirsOf dirs0 d) stf).trans ?_
        rw [hvis, ← List.append_assoc]
        exact h2.append_right _

theorem childDirsOf_mem (ds : List (List String)) (d c : List String)
    (h : c ∈ childDirsOf ds d) :
    c ∈ ds ∧ c.length = d.length + 1 ∧ d <+: c := by
  simp only [childDirsOf, List.mem_filter, Bool.and_eq_true,
    decide_eq_true_eq] at h
  exact ⟨h.1, h.2.1, (isPrefixOf_iff _ _).mp h.2.2⟩

theorem childFilesOf_mem (files0 : List (List String × String))
    (d q : List String) (h : q ∈ childFilesOf files0 d) :
    q ∈ files0.map Prod.fst ∧ q.length = d.length + 1 ∧ d <+: q := by
  simp only [childFilesOf, List.mem_filter, Bool.and_eq_true,
    decide_eq_true_eq] at h
  exact ⟨h.1, h.2.1, (isPrefixOf_iff _ _).mp h.2.2⟩

theorem visitedFiles_under (dirs0 : List (List String))
    (files0 : List (List String × String)) :
    ∀ (fuel : Nat) (d q : List String),
      q ∈ visitedFiles dirs0 files0 fuel d →
        d <+: q ∧ d.length < q.length := by
  intro fuel
  induction fuel with
  | zero => intro d q hq; simp [visitedFiles] at hq
  | succ n ih =>
    intro d q hq
    rw [show visitedFiles dirs0 files0 (n + 1) d =
      childFilesOf files0 d ++
        (childDirsOf dirs0 d).flatMap
          (fun c => visitedFiles dirs0 files0 n c) from rfl] at hq
    rcases List.mem_append.mp hq with hq | hq
    · have h1 := childFilesOf_mem files0 d q hq
      refine ⟨h1.2.2, ?_⟩
      rw [h1.2.1]
      exact Nat.lt_succ_self _
    · obtain ⟨c, hc, hq⟩ := List.mem_flatMap.mp hq
      have hcd := childDirsOf_mem dirs0 d c hc
      have hih := ih c q hq
      refine ⟨hcd.2.2.trans hih.1, ?_⟩
      have := hih.2
      omega

theorem visitedFiles_nodup (dirs0 : List (List String))
    (files0 : List (List String × String)) (hd : dirs0.Nodup)
    (hf : (files0.map Prod.fst).Nodup) :
    ∀ (fuel : Nat) (d : List String),
      (visitedFiles dirs0 files0 fuel d).Nodup := by
  intro fuel
  induction fuel with
  | zero => intro d; simp [visitedFiles]
  | succ n ih =>
    intro d
    rw [show visitedFiles dirs0 files0 (n + 1) d =
      childFilesOf files0 d ++
        (childDirsOf dirs0 d).flatMap
          (fun c => visitedFiles dirs0 files0 n c) from rfl]
    have hchild : (childDirsOf dirs0 d).Nodup := hd.filter _
    refine List.Nodup.append (hf.filter _) ?_ ?_
    · refine List.nodup_flatMap.mpr ⟨fun c _ => ih c, ?_⟩
      refine hchild.imp_of_mem ?_
      intro a b ha hb hne q hqa hqb
      have haq := visitedFiles_under dirs0 files0 n a q hqa
      have hbq := visitedFiles_under dirs0 files0 n b q hqb
      have hla := (childDirsOf_mem dirs0 d a ha).2.1
      have hlb := (childDirsOf_mem dirs0 d b hb).2.1
      apply hne
      have ha2 := List.prefix_iff_eq_take.mp haq.1
      have hb2 := List.prefix_iff_eq_take.mp hbq.1
      rw [ha2, hb2, hla, hlb]
    · intro q hq1 hq2
      have h1 := (childFilesOf_mem files0 d q hq1).2.1
      obtain ⟨c, hc, hq⟩ := List.mem_flatMap.mp hq2
      have hcd := (childDirsOf_mem dirs0 d c hc).2.1
      have h2 := (visitedFiles_under dirs0 files0 n c q hq).2
      omega

/-- In the directory branch of `copy`, on a duplicate-free snapshot,
`on_overwrite` is consulted at most once per file: the sources of the
consultation log are pairwise distinct. -/
theorem copy_dir_log_nodup
    (fs : FS) (root old new ro rn0 : List String)
    (onOW : List String → List String → Bool)
    (hro : resolve_path root old = some ro)
    (hrn : resolve_path root new = some rn0)
    (hnofile : fs.isFile (addGpg ro) = false)
    (hdir : fs.isDir ro = true)
    (hd : (fs.makedirs
      (if fs.isDir rn0 then rn0 ++ [basenameOf old] else rn0)).dirs.Nodup)
    (hf : ((fs.makedirs
      (if fs.isDir rn0 then rn0 ++ [basenameOf old] else rn0)).files.map
        Prod.fst).Nodup) :
    ((copy fs root old new onOW).2.2.map Prod.fst).Nodup := by
  have hsub := walkCopyTD_log_sublist
    (fs.makedirs (if fs.isDir rn0 then rn0 ++ [basenameOf old] else rn0)).dirs
    (fs.makedirs (if fs.isDir rn0 then rn0 ++ [basenameOf old] else rn0)).files
    ro (if fs.isDir rn0 then rn0 ++ [basenameOf old] else rn0) onOW
    (fs.makedirs
      (if fs.isDir rn0 then rn0 ++ [basenameOf old] else rn0)).depthBound ro
    ((fs.makedirs (if fs.isDir rn0 then rn0 ++ [basenameOf old] else rn0)), [])
  have hnodup := visitedFiles_nodup
    (fs.makedirs (if fs.isDir rn0 then rn0 ++ [basenameOf old] else rn0)).dirs
    (fs.makedirs (if fs.isDir rn0 then rn0 ++ [basenameOf old] else rn0)).files
    hd hf
    (fs.makedirs
      (if fs.isDir rn0 then rn0 ++ [basenameOf old] else rn0)).depthBound ro
  cases hw : walkCopyTD
      (fs.makedirs (if fs.isDir rn0 then rn0 ++ [basenameOf old] else rn0)).dirs
      (fs.makedirs (if fs.isDir rn0 then rn0 ++ [basenameOf old] else rn0)).files
      ro (if fs.isDir rn0 then rn0 ++ [basenameOf old] else rn0) onOW
      (fs.makedirs
        (if fs.isDir rn0 then rn0 ++ [basenameOf old] else rn0)).depthBound ro
      ((fs.makedirs (if fs.isDir rn0 then rn0 ++ [basenameOf old] else rn0)),
        []) with
  | ok st =>
    rw [hw] at hsub
    have hlogeq : (copy fs root old new onOW).2.2 = st.2 := by
      simp [copy, hro, hrn, hnofile, hdir, hw]
    rw [hlogeq]
    exact List.Nodup.sublist (by simpa using hsub) hnodup
  | error st =>
    rw [hw] at hsub
    have hlogeq : (copy fs root old new onOW).2.2 = st.2 := by
      simp [copy, hro, hrn, hnofile, hdir, hw]
    rw [hlogeq]
    exact List.Nodup.sublist (by simpa using hsub) hnodup

end Lemmas

section Claims

/-- A store holding only the root `.gpg-id` declaration. -/
def fsA : FS :=
  ⟨[([(("s")), ((".gpg-id"))], ("id"))], [[(("s"))]]⟩

/-- A store holding the root `.gpg-id` and one entry `e`. -/
def fsB : FS :=
  ⟨[([(("s")), ((".gpg-id"))], ("id")), ([(("s")), (("e.gpg"))], ("CT"))],
    [[(("s"))]]⟩

/-- A store holding the root `.gpg-id` and one empty directory `d`. -/
def fsD : FS :=
  ⟨[([(("s")), ((".gpg-id"))], ("id"))], [[(("s"))], [(("s")), (("d"))]]⟩

/-- C4: for every logical path and every content string `c` (multi-line
and empty included), a `read` performed after a successful
`write(path, c)` returns exactly `c`, under the hypothesis that the
backend's decryption inverts its encryption for the governing gpg id. -/
theorem read_after_write_roundtrip
    (encrypt : String → String → String) (decrypt : String → Option String)
    (fs : FS) (root path rp : List String) (c gid : String)
    (hres : resolve_path root path = some rp)
    (hgid : getGpgIdF fs.files root (addGpg rp) = some gid)
    (hinv : decrypt (encrypt gid c) = some c) :
    (insert_password encrypt fs root path c).2 = none ∧
    get_decrypted_password decrypt (insert_password encrypt fs root path c).1
      root path none = .ok (some c) := by
  have hfiles1 :
      (if fs.isDir (addGpg rp).dropLast then fs
        else fs.makedirs (addGpg rp).dropLast).files = fs.files := by
    split <;> rfl
  simp only [insert_password, hres, hfiles1, hgid]
  refine ⟨trivial, ?_⟩
  simp only [get_decrypted_password, hres]
  have hlook := lookupFile_setFile_self
    (if fs.isDir (addGpg rp).dropLast then fs else fs.makedirs (addGpg rp).dropLast)
    (addGpg rp) (encrypt gid c)
  simp only [hlook, hinv]

/-- C4 witness: a concrete round trip through a one-entry store. -/
theorem read_after_write_roundtrip_witness :
    (insert_password (fun _ c => c) fsA [(("s"))] [(("a"))]
      ("hello\nworld")).2 = none ∧
    get_decrypted_password some
      (insert_password (fun _ c => c) fsA [(("s"))] [(("a"))]
        ("hello\nworld")).1 [(("s"))] [(("a"))] none =
      .ok (some ("hello\nworld")) :=
  read_after_write_roundtrip (fun _ c => c) some fsA [(("s"))] [(("a"))]
    [(("s")), (("a"))] ("hello\nworld") ("id") (by rfl) (by rfl) rfl

/-- C5: field extraction is a first-match line scan over the decrypted
content: on `"secret\nusername: bob\nhost: example.com"` the password
field gives `"secret"` (first-line fallback), the username field
`"bob"`, the hostname field `"example.com"`; in general, when no
`password:`/`pass:` line matches, the password field falls back to the
first line, and when no username/hostname line matches, the read yields
no value rather than an error. -/
theorem field_extraction_first_match
    (decrypt : String → Option String) (fs : FS) (root path rp : List String)
    (ct : String)
    (hres : resolve_path root path = some rp)
    (hlook : lookupFile fs.files (addGpg rp) = some ct)
    (hdec : decrypt ct = some ("secret\nusername: bob\nhost: example.com")) :
    get_decrypted_password decrypt fs root path (some .password) =
      .ok (some ("secret")) ∧
    get_decrypted_password decrypt fs root path (some .username) =
      .ok (some ("bob")) ∧
    get_decrypted_password decrypt fs root path (some .hostname) =
      .ok (some ("example.com")) ∧
    (∀ (decrypt2 : String → Option String) (fs2 : FS)
      (root2 path2 rp2 : List String) (ct2 pt : String),
      resolve_path root2 path2 = some rp2 →
      lookupFile fs2.files (addGpg rp2) = some ct2 →
      decrypt2 ct2 = some pt →
      (reSearch pwKeys pt.data = none →
        get_decrypted_password decrypt2 fs2 root2 path2 (some .password) =
          .ok (some (firstLine pt))) ∧
      (reSearch userKeys pt.data = none →
        get_decrypted_password decrypt2 fs2 root2 path2 (some .username) =
          .ok none) ∧
      (reSearch hostKeys pt.data = none →
        get_decrypted_password decrypt2 fs2 root2 path2 (some .hostname) =
          .ok none)) := by
  refine ⟨?_, ?_, ?_, ?_⟩
  · simp only [get_decrypted_password, hres, hlook, hdec]
    rfl
  · simp only [get_decrypted_password, hres, hlook, hdec]
    rfl
  · simp only [get_decrypted_password, hres, hlook, hdec]
    rfl
  · intro decrypt2 fs2 root2 path2 rp2 ct2 pt hres2 hlook2 hdec2
    refine ⟨?_, ?_, ?_⟩ <;> intro hnone <;>
      simp only [get_decrypted_password, hres2, hlook2, hdec2, reSearchStr,
        hnone, Option.map_none', Option.getD_none]

/-- C5 witness: the sample content read through a concrete store. -/
theorem field_extraction_first_match_witness :
    get_decrypted_password
      (fun _ => some ("secret\nusername: bob\nhost: example.com")) fsB
      [(("s"))] [(("e"))] (some .password) = .ok (some ("secret")) ∧
    get_decrypted_password
      (fun _ => some ("secret\nusername: bob\nhost: example.com")) fsB
      [(("s"))] [(("e"))] (some .username) = .ok (some ("bob")) :=
  have h := field_extraction_first_match
    (fun _ => some ("secret\nusername: bob\nhost: example.com")) fsB
    [(("s"))] [(("e"))] [(("s")), (("e"))] ("CT") (by rfl) (by rfl) rfl
  ⟨h.1, h.2.1⟩

/-- C9: `remove` on a path that resolves to an existing directory with no
matching entry file and `recursive = false` raises `NotRecursiveError`
(`ValueError`) and deletes nothing: the filesystem is returned
untouched. -/
theorem remove_dir_not_recursive
    (fs : FS) (root path rp : List String) (onE : List String → Bool)
    (hres : resolve_path root path = some rp)
    (hnofile : fs.isFile (addGpg rp) = false)
    (hdir : fs.isDir rp = true) :
    remove fs root path false onE = (fs, some .notRecursive) := by
  simp [remove, hres, hnofile, hdir]

/-- C9 witness: removing an empty directory without `recursive`. -/
theorem remove_dir_not_recursive_witness :
    remove fsD [(("s"))] [(("d"))] false (fun _ => true) =
      (fsD, some .notRecursive) :=
  remove_dir_not_recursive fsD [(("s"))] [(("d"))] [(("s")), (("d"))]
    (fun _ => true) (by rfl) (by rfl) (by rfl)

/-- C10: `remove` on an existing entry whose `on_entry` callback answers
false deletes nothing, prunes nothing, does not fall through to the
directory branch, and returns without error: the filesystem is exactly
the one before the call. -/
theorem remove_entry_rejected
    (fs : FS) (root path rp : List String) (recursive : Bool)
    (onE : List String → Bool)
    (hres : resolve_path root path = some rp)
    (hfile : fs.isFile (addGpg rp) = true)
    (hrej : onE (addGpg rp) = false) :
    remove fs root path recursive onE = (fs, none) := by
  simp [remove, hres, hfile, hrej]

/-- C10 witness: a rejected removal of the entry `e`. -/
theorem remove_entry_rejected_witness :
    remove fsB [(("s"))] [(("e"))] false (fun _ => false) = (fsB, none) :=
  remove_entry_rejected fsB [(("s"))] [(("e"))] [(("s")), (("e"))] false
    (fun _ => false) (by rfl) (by rfl) rfl

/-- A store with the root `.gpg-id` and a single entry `parent/child`. -/
def fsP : FS :=
  ⟨[([(("s")), ((".gpg-id"))], ("id")),
    ([(("s")), (("parent")), (("child.gpg"))], ("c"))],
    [[(("s"))], [(("s")), (("parent"))]]⟩

/-- C2: after `remove` deletes an existing accepted entry, it prunes
now-empty ancestor directories of the deleted file: the call succeeds,
the entry file is gone, the store root (which keeps its `.gpg-id` file)
is never removed, only directories whose every file was the deleted
entry itself are ever pruned (pruning stops at any non-empty directory),
and the deleted file's parent, when it became empty, is pruned. -/
theorem remove_entry_prunes
    (fs : FS) (root path rp : List String) (recursive : Bool)
    (onE : List String → Bool)
    (hres : resolve_path root path = some rp)
    (hfile : fs.isFile (addGpg rp) = true)
    (hacc : onE (addGpg rp) = true)
    (hgpgid : fs.isFile (root ++ [((".gpg-id"))]) = true)
    (hne : addGpg rp ≠ root ++ [((".gpg-id"))])
    (hrootdir : root ∈ fs.dirs) :
    (remove fs root path recursive onE).2 = none ∧
    (remove fs root path recursive onE).1.isFile (addGpg rp) = false ∧
    root ∈ (remove fs root path recursive onE).1.dirs ∧
    (∀ e ∈ fs.dirs, e ∉ (remove fs root path recursive onE).1.dirs →
      ∀ q c, (q, c) ∈ fs.files → strictUnder e q = true → q = addGpg rp) ∧
    ((addGpg rp).dropLast ≠ [] →
      (addGpg rp).dropLast ∈ fs.dirs →
      (fs.removeFile (addGpg rp)).dirEmpty (addGpg rp).dropLast = true →
      (addGpg rp).dropLast ∉ (remove fs root path recursive onE).1.dirs) := by
  have hrw : remove fs root path recursive onE =
      (removedirsAux (fs.removeFile (addGpg rp)) (addGpg rp).dropLast, none) := by
    simp [remove, hres, hfile, hacc]
  rw [hrw]
  have hdirs1 : (fs.removeFile (addGpg rp)).dirs = fs.dirs := rfl
  refine ⟨rfl, ?_, ?_, ?_, ?_⟩
  · rw [isFile_false_iff]
    rw [show (removedirsAux (fs.removeFile (addGpg rp)) (addGpg rp).dropLast).files =
        (fs.removeFile (addGpg rp)).files from removedirsAux_files _ _]
    exact lookupFile_eraseFile_self fs.files (addGpg rp)
  · by_contra hgone
    obtain ⟨c0, hc0⟩ :=
      Option.isSome_iff_exists.mp (by simpa [FS.isFile] using hgpgid)
    have hmem : (root ++ [((".gpg-id"))], c0) ∈ fs.files :=
      mem_of_lookupFile _ _ _ hc0
    have hmem1 : (root ++ [((".gpg-id"))], c0) ∈ (fs.removeFile (addGpg rp)).files :=
      mem_eraseFile _ _ _ _ hmem (fun hc => hne hc.symm)
    have := removedirsAux_pruned_empty (fs.removeFile (addGpg rp))
      (addGpg rp).dropLast root (hdirs1 ▸ hrootdir) hgone _ _ hmem1
    rw [strictUnder_append] at this
    simp at this
  · intro e he hgone q c hq hunder
    by_contra hqne
    have hq1 : (q, c) ∈ (fs.removeFile (addGpg rp)).files :=
      mem_eraseFile _ _ _ _ hq hqne
    have := removedirsAux_pruned_empty (fs.removeFile (addGpg rp))
      (addGpg rp).dropLast e (hdirs1 ▸ he) hgone _ _ hq1
    rw [hunder] at this
    simp at this
  · intro hnenil hpdir hempty
    exact removedirsAux_removes_head (fs.removeFile (addGpg rp))
      (addGpg rp).dropLast hnenil
      ⟨(isDir_iff _ _).mpr (hdirs1 ▸ hpdir), hempty⟩

/-- C2 witness: deleting `parent/child` in a concrete store leaves the
root in place and prunes the emptied `parent` directory. -/
theorem remove_entry_prunes_witness :
    (remove fsP [(("s"))] [(("parent")), (("child"))] false (fun _ => true)).2 =
      none ∧
    [(("s"))] ∈
      (remove fsP [(("s"))] [(("parent")), (("child"))] false
        (fun _ => true)).1.dirs ∧
    [(("s")), (("parent"))] ∉
      (remove fsP [(("s"))] [(("parent")), (("child"))] false
        (fun _ => true)).1.dirs :=
  have h := remove_entry_prunes fsP [(("s"))] [(("parent")), (("child"))]
    [(("s")), (("parent")), (("child"))] false (fun _ => true) (by rfl)
    (by rfl) rfl (by rfl) (by decide) (by decide)
  ⟨h.1, h.2.2.1, h.2.2.2.2 (by decide) (by decide) (by decide)⟩

/-- A store with one entry `x` and an existing empty directory `dest`. -/
def fsC : FS :=
  ⟨[([(("s")), ((".gpg-id"))], ("id")), ([(("s")), (("x.gpg"))], ("X"))],
    [[(("s"))], [(("s")), (("dest"))]]⟩

/-- C7: when the destination resolves to an existing directory, `copy`
retargets to `new_path/basename(old_path)`: the destination entry
appears inside the directory with the source's content, the call
succeeds without consulting `on_overwrite`, and the source entry is left
intact. -/
theorem copy_into_directory
    (fs : FS) (root old new ro rn0 : List String) (c : String)
    (onOW : List String → List String → Bool)
    (hro : resolve_path root old = some ro)
    (hrn : resolve_path root new = some rn0)
    (hdirdst : fs.isDir rn0 = true)
    (hsrc : lookupFile fs.files (addGpg ro) = some c)
    (hnofile : fs.isFile (addGpg (rn0 ++ [basenameOf old])) = false)
    (hnodir : fs.isDir (addGpg (rn0 ++ [basenameOf old])) = false) :
    copy fs root old new onOW =
      (fs.setFile (addGpg (rn0 ++ [basenameOf old])) c, none, []) ∧
    lookupFile (copy fs root old new onOW).1.files (addGpg ro) = some c ∧
    lookupFile (copy fs root old new onOW).1.files
      (addGpg (rn0 ++ [basenameOf old])) = some c := by
  have hf : fs.isFile (addGpg ro) = true := by
    simp [FS.isFile, hsrc]
  have hdrop : (addGpg (rn0 ++ [basenameOf old])).dropLast = rn0 := by
    rw [addGpg_concat, List.dropLast_concat]
  have hcopy2 : copy2 fs (addGpg ro) (addGpg (rn0 ++ [basenameOf old])) =
      .ok (fs.setFile (addGpg (rn0 ++ [basenameOf old])) c) := by
    simp [copy2, hnodir, hdrop, hdirdst, hsrc]
  have hneq : addGpg ro ≠ addGpg (rn0 ++ [basenameOf old]) := by
    intro hc
    rw [hc] at hf
    rw [hf] at hnofile
    exact Bool.noConfusion hnofile
  have hmain : copy fs root old new onOW =
      (fs.setFile (addGpg (rn0 ++ [basenameOf old])) c, none, []) := by
    simp [copy, hro, hrn, hdirdst, hf, hnofile, hcopy2]
  refine ⟨hmain, ?_, ?_⟩
  · rw [hmain]
    rw [lookupFile_setFile_ne fs _ _ c hneq]
    exact hsrc
  · rw [hmain]
    exact lookupFile_setFile_self fs _ c

/-- C7 witness: `copy("x", "dest")` with `dest/` an existing empty
directory yields `dest/x.gpg` with the content of `x.gpg`, which is left
intact. -/
theorem copy_into_directory_witness :
    copy fsC [(("s"))] [(("x"))] [(("dest"))] (fun _ _ => true) =
      (fsC.setFile [(("s")), (("dest")), (("x.gpg"))] ("X"), none, []) ∧
    lookupFile
      (copy fsC [(("s"))] [(("x"))] [(("dest"))] (fun _ _ => true)).1.files
      [(("s")), (("x.gpg"))] = some ("X") :=
  have h := copy_into_directory fsC [(("s"))] [(("x"))] [(("dest"))]
    [(("s")), (("x"))] [(("s")), (("dest"))] ("X") (fun _ _ => true)
    (by rfl) (by rfl) (by rfl) (by rfl) (by rfl) (by rfl)
  ⟨h.1, h.2.1⟩

/-- C6 (amended to `copy`; the repository's `mv` has no overwrite
callback): for a single-entry copy, `on_overwrite` is consulted exactly
once when the (retargeted) destination file exists and never when it is
absent; the overwrite happens iff the callback answers true — on false
the filesystem (in particular the destination's content) is unchanged,
on true the destination receives the source's content; for the
directory branch, the per-file callback of the walk obeys the same rule,
extending the consultation log by exactly the colliding file, and over a
whole tree copy on a duplicate-free snapshot no file is consulted
twice. -/
theorem copy_overwrite_confirmation
    (fs : FS) (root old new ro rn0 : List String)
    (onOW : List String → List String → Bool)
    (hro : resolve_path root old = some ro)
    (hrn : resolve_path root new = some rn0)
    (hsrc : fs.isFile (addGpg ro) = true) :
    (fs.isFile (addGpg (if fs.isDir rn0 then rn0 ++ [basenameOf old] else rn0)) = true →
      (copy fs root old new onOW).2.2 =
        [(addGpg ro, addGpg (if fs.isDir rn0 then rn0 ++ [basenameOf old] else rn0))] ∧
      (onOW (addGpg ro)
          (addGpg (if fs.isDir rn0 then rn0 ++ [basenameOf old] else rn0)) = false →
        copy fs root old new onOW =
          (fs, none,
            [(addGpg ro,
              addGpg (if fs.isDir rn0 then rn0 ++ [basenameOf old] else rn0))])) ∧
      (onOW (addGpg ro)
          (addGpg (if fs.isDir rn0 then rn0 ++ [basenameOf old] else rn0)) = true →
        fs.isDir (addGpg (if fs.isDir rn0 then rn0 ++ [basenameOf old] else rn0)) = false →
        fs.isDir (addGpg (if fs.isDir rn0 then rn0 ++ [basenameOf old] else rn0)).dropLast = true →
        ∀ c, lookupFile fs.files (addGpg ro) = some c →
          copy fs root old new onOW =
            (fs.setFile (addGpg (if fs.isDir rn0 then rn0 ++ [basenameOf old] else rn0)) c,
              none,
              [(addGpg ro,
                addGpg (if fs.isDir rn0 then rn0 ++ [basenameOf old] else rn0))]))) ∧
    (fs.isFile (addGpg (if fs.isDir rn0 then rn0 ++ [basenameOf old] else rn0)) = false →
      (copy fs root old new onOW).2.2 = []) ∧
    (∀ (st : FS × List (List String × List String)) (src2 dst2 : List String),
      (st.1.isFile dst2 = true →
        consultLog (cpFileStep onOW st src2 dst2) = st.2 ++ [(src2, dst2)] ∧
        (onOW src2 dst2 = false →
          cpFileStep onOW st src2 dst2 = .ok (st.1, st.2 ++ [(src2, dst2)]))) ∧
      (st.1.isFile dst2 = false →
        consultLog (cpFileStep onOW st src2 dst2) = st.2)) ∧
    (∀ (fs2 : FS) (root2 old2 new2 ro2 rn02 : List String)
      (onOW2 : List String → List String → Bool),
      resolve_path root2 old2 = some ro2 →
      resolve_path root2 new2 = some rn02 →
      fs2.isFile (addGpg ro2) = false →
      fs2.isDir ro2 = true →
      (fs2.makedirs
        (if fs2.isDir rn02 then rn02 ++ [basenameOf old2] else rn02)).dirs.Nodup →
      ((fs2.makedirs
        (if fs2.isDir rn02 then rn02 ++ [basenameOf old2] else rn02)).files.map
          Prod.fst).Nodup →
      ((copy fs2 root2 old2 new2 onOW2).2.2.map Prod.fst).Nodup) := by
  refine ⟨?_, ?_, ?_, ?_⟩
  · intro hcoll
    refine ⟨?_, ?_, ?_⟩
    · cases how : onOW (addGpg ro)
        (addGpg (if fs.isDir rn0 then rn0 ++ [basenameOf old] else rn0)) with
      | false => simp [copy, hro, hrn, hsrc, hcoll, how]
      | true =>
        cases hc2 : copy2 fs (addGpg ro)
            (addGpg (if fs.isDir rn0 then rn0 ++ [basenameOf old] else rn0)) with
        | ok fs1 => simp [copy, hro, hrn, hsrc, hcoll, how, hc2]
        | error fs1 => simp [copy, hro, hrn, hsrc, hcoll, how, hc2]
    · intro how
      simp [copy, hro, hrn, hsrc, hcoll, how]
    · intro how hnd hpar c hc
      have hc2 : copy2 fs (addGpg ro)
          (addGpg (if fs.isDir rn0 then rn0 ++ [basenameOf old] else rn0)) =
          .ok (fs.setFile
            (addGpg (if fs.isDir rn0 then rn0 ++ [basenameOf old] else rn0)) c) := by
        simp [copy2, hnd, hpar, hc]
      simp [copy, hro, hrn, hsrc, hcoll, how, hc2]
  · intro habs
    cases hc2 : copy2 fs (addGpg ro)
        (addGpg (if fs.isDir rn0 then rn0 ++ [basenameOf old] else rn0)) with
    | ok fs1 => simp [copy, hro, hrn, hsrc, habs, hc2]
    | error fs1 => simp [copy, hro, hrn, hsrc, habs, hc2]
  · intro st src2 dst2
    refine ⟨?_, ?_⟩
    · intro hcoll
      refine ⟨?_, ?_⟩
      · cases how : onOW src2 dst2 with
        | false => simp [cpFileStep, consultLog, hcoll, how]
        | true =>
          cases hc2 : copy2 st.1 src2 dst2 with
          | ok fs1 => simp [cpFileStep, consultLog, hcoll, how, hc2]
          | error fs1 => simp [cpFileStep, consultLog, hcoll, how, hc2]
      · intro how
        simp [cpFileStep, hcoll, how]
    · intro habs
      cases hc2 : copy2 st.1 src2 dst2 with
      | ok fs1 => simp [cpFileStep, consultLog, habs, hc2]
      | error fs1 => simp [cpFileStep, consultLog, habs, hc2]
  · intro fs2 root2 old2 new2 ro2 rn02 onOW2 hro2 hrn2 hnofile2 hdir2 hd2 hf2
    exact copy_dir_log_nodup fs2 root2 old2 new2 ro2 rn02 onOW2 hro2 hrn2
      hnofile2 hdir2 hd2 hf2

/-- C6 witness: copying `x` onto the existing entry `e` consults the
callback exactly once; a denying callback leaves the store unchanged. -/
theorem copy_overwrite_confirmation_witness :
    (fsB.setFile [(("s")), (("x.gpg"))] ("X")).isFile
      (addGpg (if (fsB.setFile [(("s")), (("x.gpg"))] ("X")).isDir [(("s")), (("e"))]
        then [(("s")), (("e"))] ++ [basenameOf [(("x"))]] else [(("s")), (("e"))])) =
      true ∧
    copy (fsB.setFile [(("s")), (("x.gpg"))] ("X")) [(("s"))] [(("x"))]
      [(("e"))] (fun _ _ => false) =
      (fsB.setFile [(("s")), (("x.gpg"))] ("X"), none,
        [([(("s")), (("x.gpg"))], [(("s")), (("e.gpg"))])]) :=
  have h := copy_overwrite_confirmation (fsB.setFile [(("s")), (("x.gpg"))] ("X"))
    [(("s"))] [(("x"))] [(("e"))] [(("s")), (("x"))] [(("s")), (("e"))]
    (fun _ _ => false) (by rfl) (by rfl) (by rfl)
  ⟨by decide, (h.1 (by decide)).2.1 rfl⟩

/-- The link table of a store whose root `s` contains a symbolic link
`link` pointing at the outside directory `outside`. -/
def storeLinks : List String → Option (List String) :=
  fun p => if p = [(("s")), (("link"))] then some [(("outside"))] else none

/-- C1 counterexample: `_resolve_path` accepts `link/x` (its lexical
normalization stays under the root) although its canonical,
symlink-resolved form escapes the store root — the containment decision
is *not* made after full canonicalization. -/
theorem resolve_path_symlink_counterexample :
    resolve_path [(("s"))] [(("link")), (("x"))] =
      some [(("s")), (("link")), (("x"))] ∧
    canonicalPath storeLinks [(("s")), (("link")), (("x"))] =
      [(("outside")), (("x"))] ∧
    ¬ [(("s"))] <+: [(("outside")), (("x"))] := by
  refine ⟨rfl, rfl, ?_⟩
  decide

/-- C1 (amended to lexical containment): every path `_resolve_path`
accepts lies, as a normalized path string, under the store root; on a
rejected path the mutating operations raise before touching the
filesystem; and trailing separators cannot defeat the check. -/
theorem resolve_path_lexical_containment :
    (∀ root p q, resolve_path root p = some q → root <+: q) ∧
    (∀ root p, resolve_path root p = none →
      (∀ (encrypt : String → String → String) (fs : FS) (pw : String),
        insert_password encrypt fs root p pw = (fs, some .pathEscape)) ∧
      (∀ (fs : FS) (recursive : Bool) (onE : List String → Bool),
        remove fs root p recursive onE = (fs, some .pathEscape)) ∧
      (∀ (fs : FS) (new : List String) (onOW : List String → List String → Bool),
        copy fs root p new onOW = (fs, some .pathEscape, []))) ∧
    (∀ root p, resolve_path root (p ++ [("")]) = resolve_path root p) := by
  refine ⟨resolve_path_under_root, ?_, ?_⟩
  · intro root p h
    refine ⟨?_, ?_, ?_⟩
    · intro encrypt fs pw
      simp [insert_password, h]
    · intro fs recursive onE
      simp [remove, h]
    · intro fs new onOW
      simp [copy, h]
  · intro root p
    unfold resolve_path normalizeAbs
    rw [← List.append_assoc, normSegs_append]
    simp [normSegs]

/-- C1 witness: `a` resolves under the root; `..` escapes lexically and
`insert_password` on it changes nothing. -/
theorem resolve_path_lexical_containment_witness :
    [(("s"))] <+: [(("s")), (("a"))] ∧
    insert_password (fun _ c => c) fsA [(("s"))] [((".."))] ("pw") =
      (fsA, some .pathEscape) :=
  ⟨resolve_path_lexical_containment.1 [(("s"))] [(("a"))] [(("s")), (("a"))]
      (by rfl),
    (resolve_path_lexical_containment.2.1 [(("s"))] [((".."))] (by rfl)).1
      (fun _ c => c) fsA ("pw")⟩

/-- C3 counterexample: `mv` moves `parent/child` to `x` (content
preserved, source gone) but, unlike `remove`, performs no pruning — the
emptied `parent` directory stays behind, while `remove` on the same
store does prune it. -/
theorem mv_no_pruning_counterexample :
    (mv fsP [(("s"))] [(("parent")), (("child"))] [(("x"))]).2 = none ∧
    lookupFile (mv fsP [(("s"))] [(("parent")), (("child"))] [(("x"))]).1.files
      [(("s")), (("x.gpg"))] = some ("c") ∧
    (mv fsP [(("s"))] [(("parent")), (("child"))] [(("x"))]).1.isFile
      [(("s")), (("parent")), (("child.gpg"))] = false ∧
    [(("s")), (("parent"))] ∈
      (mv fsP [(("s"))] [(("parent")), (("child"))] [(("x"))]).1.dirs ∧
    [(("s")), (("parent"))] ∉
      (remove fsP [(("s"))] [(("parent")), (("child"))] false
        (fun _ => true)).1.dirs := by
  decide

/-- C3 (amended): the repository's `mv` builds both paths by real-path
joining onto the store root with no containment validation and no
overwrite callback; in the single-entry case it moves the encrypted file
to the destination, preserving content, silently replacing any colliding
destination file, and leaving the directory structure — in particular
emptied source parents — untouched. -/
theorem mv_file_semantics
    (fs : FS) (root old new : List String) (c : String)
    (hnotdir : fs.isDir (normalizeAbs (root ++ old)) = false)
    (hsrc : lookupFile fs.files (normalizeAbs (root ++ addGpg old)) = some c)
    (hdstnotdir : fs.isDir (normalizeAbs (root ++ addGpg new)) = false)
    (hpar : fs.isDir (normalizeAbs (root ++ addGpg new)).dropLast = true) :
    mv fs root old new =
      ((fs.removeFile (normalizeAbs (root ++ addGpg old))).setFile
        (normalizeAbs (root ++ addGpg new)) c, none) ∧
    (mv fs root old new).1.dirs = fs.dirs ∧
    lookupFile (mv fs root old new).1.files
      (normalizeAbs (root ++ addGpg new)) = some c ∧
    (normalizeAbs (root ++ addGpg old) ≠ normalizeAbs (root ++ addGpg new) →
      (mv fs root old new).1.isFile (normalizeAbs (root ++ addGpg old)) = false) := by
  have hf : fs.isFile (normalizeAbs (root ++ addGpg old)) = true := by
    simp [FS.isFile, hsrc]
  have hmv : shutilMove fs (normalizeAbs (root ++ addGpg old))
      (normalizeAbs (root ++ addGpg new)) =
      .ok ((fs.removeFile (normalizeAbs (root ++ addGpg old))).setFile
        (normalizeAbs (root ++ addGpg new)) c) := by
    simp [shutilMove, hdstnotdir, hpar, hf, hsrc]
  have hmain : mv fs root old new =
      ((fs.removeFile (normalizeAbs (root ++ addGpg old))).setFile
        (normalizeAbs (root ++ addGpg new)) c, none) := by
    simp [mv, hnotdir, hf, hmv]
  refine ⟨hmain, ?_, ?_, ?_⟩
  · rw [hmain]
    rfl
  · rw [hmain]
    exact lookupFile_setFile_self _ _ c
  · intro hne2
    rw [hmain, isFile_false_iff]
    rw [lookupFile_setFile_ne _ _ _ c hne2]
    exact lookupFile_eraseFile_self fs.files _

/-- C3 amended-claim witness: the concrete move of `parent/child` to
`x`. -/
theorem mv_file_semantics_witness :
    mv fsP [(("s"))] [(("parent")), (("child"))] [(("x"))] =
      ((fsP.removeFile [(("s")), (("parent")), (("child.gpg"))]).setFile
        [(("s")), (("x.gpg"))] ("c"), none) ∧
    (mv fsP [(("s"))] [(("parent")), (("child"))] [(("x"))]).1.dirs =
      fsP.dirs :=
  have h := mv_file_semantics fsP [(("s"))] [(("parent")), (("child"))]
    [(("x"))] ("c") (by rfl) (by rfl) (by rfl) (by rfl)
  ⟨h.1, h.2.1⟩

/-- A store with the root `.gpg-id` and two entries `a`, `b`. -/
def fsM : FS :=
  ⟨[([(("s")), ((".gpg-id"))], ("id")), ([(("s")), (("a.gpg"))], ("A")),
    ([(("s")), (("b.gpg"))], ("B"))], [[(("s"))]]⟩

/-- C6 counterexample: the repository's move (`mv` of `command.py`)
takes no `on_overwrite` callback at all and silently replaces a
colliding destination: moving `a` onto the existing entry `b` succeeds
and overwrites `b.gpg`'s content although no overwrite confirmation was
consulted (none exists to return true). -/
theorem mv_overwrite_unconfirmed_counterexample :
    lookupFile fsM.files [(("s")), (("b.gpg"))] = some ("B") ∧
    (mv fsM [(("s"))] [(("a"))] [(("b"))]).2 = none ∧
    lookupFile (mv fsM [(("s"))] [(("a"))] [(("b"))]).1.files
      [(("s")), (("b.gpg"))] = some ("A") := by
  decide

/-- C8: `generate` with `first_line_only` splices the fresh password in
front of the existing content minus its first line: with existing
decrypted content `"old\nkeep-me"` and `length = 5`, the call succeeds,
returns the generated password, and stores (encrypted) content whose
first line is the 5-character password and whose remainder after the
first line break is exactly `"keep-me"`. -/
theorem generate_splices_first_line
    (encrypt : String → String → String) (decrypt : String → Option String)
    (rand : Nat → Nat) (fs : FS) (root path rp : List String)
    (ct gid : String) (digits symbols : Bool)
    (hres : resolve_path root path = some rp)
    (hlook : lookupFile fs.files (addGpg rp) = some ct)
    (hdec : decrypt ct = some ("old\nkeep-me"))
    (hgid : getGpgIdF fs.files root (addGpg rp) = some gid) :
    (generate_password encrypt decrypt rand fs root path digits symbols 5
      true).2.1 = none ∧
    (generate_password encrypt decrypt rand fs root path digits symbols 5
      true).2.2 = some (genPw rand digits symbols 5) ∧
    lookupFile (generate_password encrypt decrypt rand fs root path digits
      symbols 5 true).1.files (addGpg rp) =
      some (encrypt gid (genPw rand digits symbols 5 ++ ("\nkeep-me"))) ∧
    (firstLine (genPw rand digits symbols 5 ++ ("\nkeep-me"))).length = 5 ∧
    restAfterBreak (genPw rand digits symbols 5 ++ ("\nkeep-me")) =
      ("keep-me") := by
  have hget : get_decrypted_password decrypt fs root path none =
      .ok (some ("old\nkeep-me")) := by
    simp [get_decrypted_password, hres, hlook, hdec]
  have hfiles1 :
      (if fs.isDir (addGpg rp).dropLast then fs
        else fs.makedirs (addGpg rp).dropLast).files = fs.files := by
    split <;> rfl
  have hpt : partitionTail ("old\nkeep-me") = ("\nkeep-me") := rfl
  have hall : ∀ c ∈ (genPw rand digits symbols 5).data,
      (fun a => decide (a ≠ '\n')) c = true := by
    intro c hc
    obtain ⟨i, _, rfl⟩ := List.mem_map.mp hc
    have hmem := getD_mem_of_lt (passChars digits symbols)
      (rand i % (passChars digits symbols).length) 'a'
      (Nat.mod_lt _ (passChars_pos digits symbols))
    simpa using passChars_no_newline digits symbols _ hmem
  have hsplit : ((genPw rand digits symbols 5) ++ ("\nkeep-me")).data =
      (genPw rand digits symbols 5).data ++ ('\n' :: ("keep-me").data) := by
    rw [String.data_append]
  have hlen : (genPw rand digits symbols 5).data.length = 5 := by
    simp [genPw]
  refine ⟨?_, ?_, ?_, ?_, ?_⟩
  · simp [generate_password, hget, hpt, insert_password, hres, hfiles1, hgid]
  · simp [generate_password, hget, hpt, insert_password, hres, hfiles1, hgid]
  · simp only [generate_password, hget, hpt, insert_password, hres, hfiles1,
      hgid]
    exact lookupFile_setFile_self _ _ _
  · unfold firstLine
    rw [hsplit, takeWhile_append_all _ _ _ hall]
    simp only [List.takeWhile_cons]
    norm_num
    exact hlen
  · unfold restAfterBreak
    rw [hsplit, dropWhile_append_all _ _ _ hall]
    simp only [List.dropWhile_cons]
    norm_num

/-- C8 witness: the splice on a concrete store with a constant random
oracle. -/
theorem generate_splices_first_line_witness :
    (generate_password (fun _ c => c)
      (fun _ => some ("old\nkeep-me")) (fun _ => 0) fsB [(("s"))] [(("e"))]
      true true 5 true).2.1 = none ∧
    (firstLine (genPw (fun _ => 0) true true 5 ++ ("\nkeep-me"))).length =
      5 ∧
    restAfterBreak (genPw (fun _ => 0) true true 5 ++ ("\nkeep-me")) =
      ("keep-me") :=
  have h := generate_splices_first_line (fun _ c => c)
    (fun _ => some ("old\nkeep-me")) (fun _ => 0) fsB [(("s"))] [(("e"))]
    [(("s")), (("e"))] ("CT") ("id") true true (by rfl) (by rfl) rfl (by rfl)
  ⟨h.1, h.2.2.2.1, h.2.2.2.2⟩

end Claims

end PyPass
